import Mathlib

/-!
Verification of the binning, circular-statistics and color-mapping engine of
the PGD conformation-distribution plot code (`pgd_search/plot/ConfDistFuncs.py`).

The Python floating-point computations are modelled over the real numbers.
Fallible Python code (`ZeroDivisionError`) is modelled with `Option`.
-/

open Real List

namespace PGD

/-! Section: Models of the Python `math` primitives used by the source -/

/-- Model of `math.atan2(y, x)`, defined as the argument of the complex number `x + y i`.
This agrees with `atan2`: it is the angle in `(-π, π]` of the vector `(x, y)`,
and `atan2 0 0 = 0`. -/
noncomputable def atan2 (y x : ℝ) : ℝ := Complex.arg ((x : ℂ) + (y : ℂ) * Complex.I)

/-- Model of `math.radians`: degrees to radians. -/
noncomputable def radians (d : ℝ) : ℝ := d * π / 180

/-- Model of `math.degrees`: radians to degrees. -/
noncomputable def degrees (r : ℝ) : ℝ := r * 180 / π

/-- Python's float `%` operator (used by the source only with the positive
modulus `2*pi`): `a % m = a - m * floor (a / m)`, which lies in `[0, m)` for
`m > 0`. -/
noncomputable def pymod (a m : ℝ) : ℝ := a - m * ⌊a / m⌋

/-- Python's two-argument `math.log(x, b) = log x / log b`. -/
noncomputable def pylog (x b : ℝ) : ℝ := Real.log x / Real.log b

/-- Python 2's `round`: round half away from zero. -/
noncomputable def pyround (x : ℝ) : ℤ := if x < 0 then -⌊-x + 1 / 2⌋ else ⌊x + 1 / 2⌋

/-! Section: `getCircularStats` (ConfDistFuncs.py lines 75-109)

The Python function filters out `None` entries, recounts the size, returns
`(values[0], 0)` for a single value, and otherwise computes the circular mean
`atan2(avg(sin), avg(cos))` of the radian-converted values together with the
sample standard deviation of the range-reduced deviations. -/

/-- The circular mean (in radians) of a list of degree values:
`atan2(sum(sin .)/size, sum(cos .)/size)` over the radian-converted values,
exactly as computed at lines 91-95 of the source. -/
noncomputable def circMeanRad (vals : List ℝ) : ℝ :=
  atan2 ((((vals.map radians).map Real.sin).sum) / (vals.length : ℝ))
        ((((vals.map radians).map Real.cos).sum) / (vals.length : ℝ))

/-- One range-reduced deviation of a radian angle from the circular mean
(lines 106-107 of the source): `straight = radAngle % (2π) - radAvg`, then
`straight` if `straight < π` else `2π - straight`. -/
noncomputable def circDev (radAvg radAngle : ℝ) : ℝ :=
  let straight := pymod radAngle (2 * π) - radAvg
  if straight < π then straight else 2 * π - straight

/-- The sum of squared range-reduced deviations (`msum` of lines 102-107). -/
noncomputable def circMSum (vals : List ℝ) : ℝ :=
  ((vals.map radians).map (fun radAngle => (circDev (circMeanRad vals) radAngle) ^ 2)).sum

/-- Model of `getCircularStats(values, size)` (lines 75-109).  The `size` parameter is
immediately overwritten with the length of the `None`-filtered value list, as
in the source (`size = len(values)` at line 86), so it never affects the
result.  Returns `(average, standard deviation)` in degrees. -/
noncomputable def getCircularStats (values : List (Option ℝ)) (size : ℕ) : ℝ × ℝ :=
  let vals := values.filterMap id
  if vals.length = 1 then (vals.headI, 0)
  else
    (degrees (circMeanRad vals),
     degrees (Real.sqrt (circMSum vals / ((vals.length : ℝ) - 1))))

/-! Section: `getLinearStats` (ConfDistFuncs.py lines 114-125)

`avg = sum(values)/size` and the sample standard deviation with an `n-1`
denominator.  Python raises `ZeroDivisionError` when `size = 0` (at the mean)
or `size = 1` (at the standard deviation); these failures are modelled as
`none`. -/
noncomputable def getLinearStats (values : List ℝ) (size : ℕ) : Option (ℝ × ℝ) :=
  if size = 0 then none
  else
    let avg := values.sum / (size : ℝ)
    if size = 1 then none
    else some (avg,
      Real.sqrt ((values.map (fun value => (value - avg) ^ 2)).sum / ((size : ℝ) - 1)))

/-! Section: Colors and `render_bins` (ConfDistFuncs.py lines 571-683)

A color is an RGB triple of reals.  The per-bin color is a base color
(either the fixed out-of-gamut outlier color `[255,-75,255]` or the palette
base scaled by a computed factor), to which the palette's per-channel
adjustment is added (lines 650-652).  The result is rounded, but never
clamped, before hex encoding (line 655). -/

structure RGB where
  r : ℝ
  g : ℝ
  b : ℝ

/-- Per-channel scaling (`map (lambda x: x*scale, colors)` of the source). -/
def RGB.scale (c : RGB) (s : ℝ) : RGB := ⟨c.r * s, c.g * s, c.b * s⟩

/-- Per-channel addition (`color[i] += adjust[i]` of lines 650-652). -/
def RGB.add (c d : RGB) : RGB := ⟨c.r + d.r, c.g + d.g, c.b + d.b⟩

/-- The fixed outlier color of lines 612 and 632, before channel adjustment. -/
def outlierRGB : RGB := ⟨255, -75, 255⟩

/-- The `COLOR_RANGES` palette table (lines 31-48): base colors and
per-channel adjustments, keyed by palette name. -/
def COLOR_RANGES (name : String) : Option (RGB × RGB) :=
  if name = "green" then some (⟨255, 180, 200⟩, ⟨0, 75, 0⟩)
  else if name = "blue" then some (⟨180, 200, 180⟩, ⟨0, 0, 75⟩)
  else if name = "red" then some (⟨130, 200, 180⟩, ⟨115, 0, 0⟩)
  else if name = "black" then some (⟨180, 180, 180⟩, ⟨75, 75, 75⟩)
  else none

/-- The outlier threshold for a circular reference field (line 580):
`stdPropAvgXSigma = 180 if stdPropAvg > 60 else sig * stdPropAvg`. -/
noncomputable def stdPropAvgXSigmaOf (sig stdPropAvg : ℝ) : ℝ :=
  if 60 < stdPropAvg then 180 else sig * stdPropAvg

/-- The wrap-corrected difference of lines 601-606: `straight = avg - meanPropAvg`,
kept if it lies strictly between `-180` and `180`, otherwise corrected by
adding `360` (if negative) or subtracting `360`. -/
noncomputable def circDifference (avg meanPropAvg : ℝ) : ℝ :=
  let straight := avg - meanPropAvg
  if -180 < straight ∧ straight < 180 then straight
  else (if straight < 0 then (360 : ℝ) else -360) + straight

/-- The per-bin difference of lines 598-609 in circular reference-field mode.
The Python guard is `if avg and '<ref>_stddev' in bin:`, a truthiness test:
a missing (`None`) average, an average exactly `0`, or a missing stddev key
yields the sentinel difference `9999`. -/
noncomputable def circBinDifference (avg : Option ℝ) (hasStddev : Bool)
    (meanPropAvg : ℝ) : ℝ :=
  match avg with
  | some a => if a ≠ 0 ∧ hasStddev = true then circDifference a meanPropAvg else 9999
  | none => 9999

/-- The non-outlier scale of lines 614-624:
`0.5 + log(difference+1, stdPropAvgXSigma+1)/2` for a nonnegative difference,
`0.5 - log(-difference+1, stdPropAvgXSigma+1)/2` for a negative one. -/
noncomputable def circBinScale (difference stdPropAvgXSigma : ℝ) : ℝ :=
  0.5 + (if 0 ≤ difference then pylog (difference + 1) (stdPropAvgXSigma + 1)
         else -pylog (-difference + 1) (stdPropAvgXSigma + 1)) / 2

/-- The pre-adjustment bin color in circular reference-field mode
(lines 598-627): the fixed outlier color when
`-difference >= stdPropAvgXSigma or difference >= stdPropAvgXSigma`,
otherwise the palette base scaled by `circBinScale`. -/
noncomputable def circBinBase (colors : RGB) (meanPropAvg stdPropAvgXSigma : ℝ)
    (avg : Option ℝ) (hasStddev : Bool) : RGB :=
  let difference := circBinDifference avg hasStddev meanPropAvg
  if stdPropAvgXSigma ≤ -difference ∨ stdPropAvgXSigma ≤ difference then outlierRGB
  else RGB.scale colors (circBinScale difference stdPropAvgXSigma)

/-- The final bin color in circular reference-field mode: the pre-adjustment
color with the palette adjustment added per channel (lines 650-652). -/
noncomputable def circBinColor (colors adjust : RGB) (meanPropAvg stdPropAvgXSigma : ℝ)
    (avg : Option ℝ) (hasStddev : Bool) : RGB :=
  RGB.add (circBinBase colors meanPropAvg stdPropAvgXSigma avg hasStddev) adjust

/-- The bin color in count mode (`ref in NON_FIELDS`, lines 592-597 and 650-652):
`scale = log(num+1, maxObs+1)` and `color = colors * scale + adjust`. -/
noncomputable def obsBinColor (colors adjust : RGB) (num maxObs : ℕ) : RGB :=
  RGB.add (RGB.scale colors (pylog ((num : ℝ) + 1) ((maxObs : ℝ) + 1))) adjust

/-- The pre-adjustment bin color in linear reference-field mode (lines 629-648):
outlier when `avg <= minPropAvg or avg >= maxPropAvg`, otherwise the palette
base scaled by `0.5 ± log(...)/2` relative to the distance from the mean. -/
noncomputable def linearBinBase (colors : RGB) (meanPropAvg minPropAvg maxPropAvg : ℝ)
    (avg : ℝ) : RGB :=
  if avg ≤ minPropAvg ∨ maxPropAvg ≤ avg then outlierRGB
  else RGB.scale colors
    (0.5 + (if meanPropAvg < avg then
              pylog (avg - meanPropAvg + 1) (maxPropAvg - meanPropAvg + 1)
            else
              -pylog (meanPropAvg - avg + 1) (meanPropAvg - minPropAvg + 1)) / 2)

/-- The final bin color in linear reference-field mode, adjustment added. -/
noncomputable def linearBinColor (colors adjust : RGB) (meanPropAvg minPropAvg maxPropAvg : ℝ)
    (avg : ℝ) : RGB :=
  RGB.add (linearBinBase colors meanPropAvg minPropAvg maxPropAvg avg) adjust

/-- A real channel value and its rounding both lie in the byte range. -/
noncomputable def chanInRange (x : ℝ) : Prop :=
  x ∈ Set.Icc (0 : ℝ) 255 ∧ pyround x ∈ Set.Icc (0 : ℤ) 255

/-- All three channels of a color lie in the byte range, before and after
rounding. -/
noncomputable def rgbInRange (c : RGB) : Prop :=
  chanInRange c.r ∧ chanInRange c.g ∧ chanInRange c.b

/-- The palette well-formedness that every entry of `COLOR_RANGES` enjoys:
nonnegative base channels and adjustments, with channelwise sum at most 255. -/
def paletteOK (colors adjust : RGB) : Prop :=
  0 ≤ colors.r ∧ 0 ≤ colors.g ∧ 0 ≤ colors.b ∧
  0 ≤ adjust.r ∧ 0 ≤ adjust.g ∧ 0 ≤ adjust.b ∧
  colors.r + adjust.r ≤ 255 ∧ colors.g + adjust.g ≤ 255 ∧ colors.b + adjust.b ≤ 255

/-! Section: Bin rectangle geometry (`query_bins`, ConfDistFuncs.py lines 313-338)

`binWidth = floor((width - xBinCount + 1)/xBinCount)` (and analogously for the
height), and the rectangle of bin `(x, y)` is placed at
`x*(binWidth+1) + xOffset + 1` with size `binWidth` by `binHeight`. -/

structure PixCoords where
  x : ℝ
  y : ℝ
  width : ℝ
  height : ℝ

/-- The `pixCoords` record built for bin `(ix, iy)` at lines 313-338. -/
noncomputable def binPixCoords (width height : ℝ) (xBinCount yBinCount : ℤ)
    (xOffset yOffset : ℝ) (ix iy : ℤ) : PixCoords :=
  let binWidth : ℝ := ((⌊(width - (xBinCount : ℝ) + 1) / (xBinCount : ℝ)⌋ : ℤ) : ℝ)
  let binHeight : ℝ := ((⌊(height - (yBinCount : ℝ) + 1) / (yBinCount : ℝ)⌋ : ℤ) : ℝ)
  ⟨(ix : ℝ) * (binWidth + 1) + xOffset + 1,
   (iy : ℝ) * (binHeight + 1) + yOffset + 1,
   binWidth, binHeight⟩

/-- Pointwise relation between an original and a modified entry of the value
list: unchanged, or a present value shifted by `+360` (used to state the wrap
invariance of the circular mean). -/
def shift360 (a b : Option ℝ) : Prop := b = a ∨ ∃ x, a = some x ∧ b = some (x + 360)

/-! Section: Range facts about the modelled primitives -/

lemma pymod_nonneg (a : ℝ) {m : ℝ} (hm : 0 < m) : 0 ≤ pymod a m := by
  have h1 : ((⌊a / m⌋ : ℤ) : ℝ) ≤ a / m := Int.floor_le _
  have hma : m * (a / m) = a := by field_simp
  have h2 := mul_le_mul_of_nonneg_left h1 hm.le
  unfold pymod
  nlinarith

lemma pymod_lt (a : ℝ) {m : ℝ} (hm : 0 < m) : pymod a m < m := by
  have h1 : a / m < ((⌊a / m⌋ : ℤ) : ℝ) + 1 := Int.lt_floor_add_one _
  have hma : m * (a / m) = a := by field_simp
  have h2 := mul_lt_mul_of_pos_left h1 hm
  unfold pymod
  nlinarith

lemma neg_pi_lt_atan2 (y x : ℝ) : -π < atan2 y x := Complex.neg_pi_lt_arg _

lemma atan2_le_pi (y x : ℝ) : atan2 y x ≤ π := Complex.arg_le_pi _

/-- The defining property of `atan2` used for the standard-deviation bound:
the vector `(x, y)` has nonnegative scalar product with the unit vector in
direction `atan2 y x`. -/
lemma atan2_dot_nonneg (y x : ℝ) :
    0 ≤ x * Real.cos (atan2 y x) + y * Real.sin (atan2 y x) := by
  set z : ℂ := (x : ℂ) + (y : ℂ) * Complex.I with hz
  have hre : z.re = x := by simp [hz]
  have him : z.im = y := by simp [hz]
  by_cases h0 : z = 0
  · have hx : x = 0 := by rw [← hre, h0]; simp
    have hy : y = 0 := by rw [← him, h0]; simp
    simp [hx, hy]
  · have habs : 0 < Complex.abs z := Complex.abs.pos h0
    unfold atan2
    rw [← hz, Complex.cos_arg h0, Complex.sin_arg, hre, him]
    have heq : x * (x / Complex.abs z) + y * (y / Complex.abs z)
        = (x ^ 2 + y ^ 2) / Complex.abs z := by ring
    rw [heq]
    positivity

lemma circMeanRad_gt (vals : List ℝ) : -π < circMeanRad vals := by
  unfold circMeanRad
  exact neg_pi_lt_atan2 _ _

lemma circMeanRad_le (vals : List ℝ) : circMeanRad vals ≤ π := by
  unfold circMeanRad
  exact atan2_le_pi _ _

/-- The range-reduced deviation has magnitude at most `π` whenever the mean
lies in `(-π, π]` (which a circular mean always does). -/
lemma abs_circDev_le (radAvg radAngle : ℝ) (h1 : -π < radAvg) (h2 : radAvg ≤ π) :
    |circDev radAvg radAngle| ≤ π := by
  have hpi : (0 : ℝ) < 2 * π := by positivity
  have hlo := pymod_nonneg radAngle hpi
  have hhi := pymod_lt radAngle hpi
  unfold circDev
  by_cases hc : pymod radAngle (2 * π) - radAvg < π
  · rw [if_pos hc, abs_le]
    constructor <;> linarith
  · rw [if_neg hc, abs_le]
    push_neg at hc
    constructor <;> linarith

/-- The cosine of the range-reduced deviation is the cosine of the raw
difference: the reduction only shifts by multiples of `2π` and flips signs. -/
lemma cos_circDev (radAvg radAngle : ℝ) :
    Real.cos (circDev radAvg radAngle) = Real.cos (radAngle - radAvg) := by
  have key : Real.cos (pymod radAngle (2 * π) - radAvg) = Real.cos (radAngle - radAvg) := by
    unfold pymod
    have h : radAngle - 2 * π * ((⌊radAngle / (2 * π)⌋ : ℤ) : ℝ) - radAvg
        = radAngle - radAvg + ((-⌊radAngle / (2 * π)⌋ : ℤ) : ℝ) * (2 * π) := by
      push_cast
      ring
    rw [h, Real.cos_add_int_mul_two_pi]
  unfold circDev
  by_cases hc : pymod radAngle (2 * π) - radAvg < π
  · rw [if_pos hc]
    exact key
  · rw [if_neg hc]
    have h : 2 * π - (pymod radAngle (2 * π) - radAvg)
        = -(pymod radAngle (2 * π) - radAvg) + ((1 : ℤ) : ℝ) * (2 * π) := by
      push_cast
      ring
    rw [h, Real.cos_add_int_mul_two_pi, Real.cos_neg, key]

/-- Pointwise bound: `d² ≤ (π²/2)·(1 - cos d)` for `|d| ≤ π`
(a rearrangement of the quadratic upper bound on the cosine). -/
lemma sq_le_pi_sq_half_mul (d : ℝ) (hd : |d| ≤ π) :
    d ^ 2 ≤ π ^ 2 / 2 * (1 - Real.cos d) := by
  have h := Real.cos_le_one_sub_mul_cos_sq hd
  have h2 : 2 / π ^ 2 * d ^ 2 ≤ 1 - Real.cos d := by linarith
  have h3 : π ^ 2 / 2 * (2 / π ^ 2 * d ^ 2) ≤ π ^ 2 / 2 * (1 - Real.cos d) :=
    mul_le_mul_of_nonneg_left h2 (by positivity)
  have h4 : π ^ 2 / 2 * (2 / π ^ 2 * d ^ 2) = d ^ 2 := by
    field_simp
    ring
  linarith

lemma sum_cos_sub (xs : List ℝ) (μ : ℝ) :
    (xs.map (fun a => Real.cos (a - μ))).sum
      = (xs.map Real.cos).sum * Real.cos μ + (xs.map Real.sin).sum * Real.sin μ := by
  induction xs with
  | nil => simp
  | cons a l ih =>
    simp only [List.map_cons, List.sum_cons]
    rw [Real.cos_sub, ih]
    ring

lemma sum_const_mul_one_sub_cos (xs : List ℝ) (c μ : ℝ) :
    (xs.map (fun a => c * (1 - Real.cos (a - μ)))).sum
      = c * ((xs.length : ℝ) - (xs.map (fun a => Real.cos (a - μ))).sum) := by
  induction xs with
  | nil => simp
  | cons a l ih =>
    simp only [List.map_cons, List.sum_cons, List.length_cons, ih]
    push_cast
    ring

/-- The sum of cosines of raw deviations from the circular mean is
nonnegative: the resultant vector points in the mean direction. -/
lemma sum_cos_sub_circMeanRad_nonneg (vals : List ℝ) :
    0 ≤ ((vals.map radians).map (fun a => Real.cos (a - circMeanRad vals))).sum := by
  rw [sum_cos_sub]
  set xs := vals.map radians with hxs
  set C := (xs.map Real.cos).sum with hC
  set S := (xs.map Real.sin).sum with hS
  rcases Nat.eq_zero_or_pos vals.length with hn | hn
  · have hvals : vals = [] := List.length_eq_zero.mp hn
    subst hvals
    simp [hxs, hC, hS]
  · have hn' : (0 : ℝ) < (vals.length : ℝ) := by exact_mod_cast hn
    have hμ : circMeanRad vals = atan2 (S / (vals.length : ℝ)) (C / (vals.length : ℝ)) := by
      unfold circMeanRad
      rw [← hxs, ← hC, ← hS]
    rw [hμ]
    have hdot := atan2_dot_nonneg (S / (vals.length : ℝ)) (C / (vals.length : ℝ))
    set μ := atan2 (S / (vals.length : ℝ)) (C / (vals.length : ℝ))
    have hmul := mul_le_mul_of_nonneg_left hdot hn'.le
    have hexp : (vals.length : ℝ) * (C / (vals.length : ℝ) * Real.cos μ
        + S / (vals.length : ℝ) * Real.sin μ) = C * Real.cos μ + S * Real.sin μ := by
      field_simp

    nlinarith [hmul, hexp]

/-- The central inequality behind claim C2: the sum of squared range-reduced
deviations is at most `(n-1)·π²` as soon as `n ≥ 2`. -/
lemma circMSum_le (vals : List ℝ) (h2 : 2 ≤ vals.length) :
    circMSum vals ≤ ((vals.length : ℝ) - 1) * π ^ 2 := by
  set μ := circMeanRad vals with hμ
  have hμ1 := circMeanRad_gt vals
  have hμ2 := circMeanRad_le vals
  set xs := vals.map radians with hxs
  have hstep : ((xs.map (fun radAngle => (circDev μ radAngle) ^ 2)).sum)
      ≤ (xs.map (fun a => π ^ 2 / 2 * (1 - Real.cos (a - μ)))).sum := by
    apply List.sum_le_sum
    intro a _
    have hd := abs_circDev_le μ a hμ1 hμ2
    have := sq_le_pi_sq_half_mul (circDev μ a) hd
    rwa [cos_circDev] at this
  have hsum := sum_const_mul_one_sub_cos xs (π ^ 2 / 2) μ
  have hcos := sum_cos_sub_circMeanRad_nonneg vals
  rw [← hxs, ← hμ] at hcos
  have hlen : (xs.length : ℝ) = (vals.length : ℝ) := by
    rw [hxs, List.length_map]
  have hn : (2 : ℝ) ≤ (vals.length : ℝ) := by exact_mod_cast h2
  have hmsum : circMSum vals = (xs.map (fun radAngle => (circDev μ radAngle) ^ 2)).sum := by
    unfold circMSum
    rw [← hxs, ← hμ]
  rw [hmsum]
  calc (xs.map (fun radAngle => (circDev μ radAngle) ^ 2)).sum
      ≤ (xs.map (fun a => π ^ 2 / 2 * (1 - Real.cos (a - μ)))).sum := hstep
    _ = π ^ 2 / 2 * ((xs.length : ℝ) - (xs.map (fun a => Real.cos (a - μ))).sum) := hsum
    _ ≤ π ^ 2 / 2 * (vals.length : ℝ) := by
        rw [hlen]
        apply mul_le_mul_of_nonneg_left _ (by positivity)
        linarith
    _ ≤ ((vals.length : ℝ) - 1) * π ^ 2 := by nlinarith [Real.pi_pos]

/-- Claim C2: for every input set of angles with at least two non-null
values, the standard deviation returned by `getCircularStats` lies in
`[0, 180]`: each per-angle deviation from the circular mean is reduced to the
shorter arc distance (never exceeding 180 degrees) before the sample-stddev
formula `sqrt(sum(dev^2)/(n-1))` is applied. -/
theorem C2_circular_stddev_in_range (values : List (Option ℝ)) (size : ℕ)
    (h : 2 ≤ (values.filterMap id).length) :
    (getCircularStats values size).2 ∈ Set.Icc (0 : ℝ) 180 := by
  have hne : ¬ (values.filterMap id).length = 1 := by omega
  have hres : (getCircularStats values size).2
      = degrees (Real.sqrt (circMSum (values.filterMap id)
          / (((values.filterMap id).length : ℝ) - 1))) := by
    simp only [getCircularStats]
    rw [if_neg hne]
  rw [hres]
  set vals := values.filterMap id
  have hn : (2 : ℝ) ≤ (vals.length : ℝ) := by exact_mod_cast h
  have hpos : (0 : ℝ) < (vals.length : ℝ) - 1 := by linarith
  have hq : circMSum vals / ((vals.length : ℝ) - 1) ≤ π ^ 2 := by
    rw [div_le_iff hpos]
    have := circMSum_le vals h
    linarith
  have hsqrt : Real.sqrt (circMSum vals / ((vals.length : ℝ) - 1)) ≤ π := by
    have := Real.sqrt_le_sqrt hq
    rwa [Real.sqrt_sq Real.pi_pos.le] at this
  constructor
  · unfold degrees
    positivity
  · unfold degrees
    rw [div_le_iff Real.pi_pos]
    nlinarith [Real.pi_pos]

/-- Witness for C2 at the concrete input `[0, 90]`. -/
theorem C2_witness :
    2 ≤ (([some 0, some 90] : List (Option ℝ)).filterMap id).length ∧
    (getCircularStats [some 0, some 90] 2).2 ∈ Set.Icc (0 : ℝ) 180 :=
  ⟨by simp, C2_circular_stddev_in_range [some 0, some 90] 2 (by simp)⟩

/-! Section: Claim C1: wrap invariance of the circular mean -/

lemma filterMap_shift360 {vs vs' : List (Option ℝ)} (h : Forall₂ shift360 vs vs') :
    Forall₂ (fun x y => y = x ∨ y = x + 360) (vs.filterMap id) (vs'.filterMap id) := by
  induction h with
  | nil => exact Forall₂.nil
  | @cons a b l1 l2 hab htl ih =>
    rcases hab with rfl | ⟨x, rfl, rfl⟩
    · cases b with
      | none => simpa using ih
      | some x =>
        simp only [List.filterMap_cons, id]
        exact Forall₂.cons (Or.inl rfl) ih
    · simp only [List.filterMap_cons, id]
      exact Forall₂.cons (Or.inr rfl) ih

lemma trig_sums_shift360 {us us' : List ℝ}
    (h : Forall₂ (fun x y => y = x ∨ y = x + 360) us us') :
    ((us'.map radians).map Real.sin).sum = ((us.map radians).map Real.sin).sum ∧
    ((us'.map radians).map Real.cos).sum = ((us.map radians).map Real.cos).sum := by
  induction h with
  | nil => simp
  | @cons x y l1 l2 hxy htl ih =>
    have hrad : radians (x + 360) = radians x + 2 * π := by
      unfold radians
      ring
    have hs : Real.sin (radians y) = Real.sin (radians x) := by
      rcases hxy with rfl | rfl
      · rfl
      · rw [hrad, Real.sin_add_two_pi]
    have hc : Real.cos (radians y) = Real.cos (radians x) := by
      rcases hxy with rfl | rfl
      · rfl
      · rw [hrad, Real.cos_add_two_pi]
    refine ⟨?_, ?_⟩ <;> simp only [List.map_cons, List.sum_cons]
    · rw [hs, ih.1]
    · rw [hc, ih.2]

lemma circMeanRad_shift360 {us us' : List ℝ}
    (h : Forall₂ (fun x y => y = x ∨ y = x + 360) us us') :
    circMeanRad us' = circMeanRad us := by
  have hlen := h.length_eq
  obtain ⟨hs, hc⟩ := trig_sums_shift360 h
  unfold circMeanRad
  rw [hs, hc, ← hlen]

/-- Claim C1: the circular mean returned by `getCircularStats` is invariant
(mod 360) under adding 360 degrees to any subset of its inputs — it is
computed as `atan2(avg(sin), avg(cos))` over the radian-converted values and
converted back to degrees — and in particular `getCircularStats` applied to
`{-179, 179}` returns a mean of exactly 180, not 0. -/
theorem C1_circular_mean_wrap_invariant :
    (∀ (values modified : List (Option ℝ)) (size size2 : ℕ),
       Forall₂ shift360 values modified →
       ∃ k : ℤ, (getCircularStats modified size2).1
         = (getCircularStats values size).1 + 360 * k) ∧
    (getCircularStats [some (-179), some 179] 2).1 = 180 := by
  constructor
  · intro values modified size size2 h
    have h' := filterMap_shift360 h
    have hlen := h'.length_eq
    by_cases h1 : (values.filterMap id).length = 1
    · obtain ⟨x, hx⟩ := List.length_eq_one.mp h1
      have h1' : (modified.filterMap id).length = 1 := by omega
      obtain ⟨y, hy⟩ := List.length_eq_one.mp h1'
      rw [hx, hy] at h'
      have hxy : y = x ∨ y = x + 360 := by
        cases h' with
        | cons hrel _ => exact hrel
      have hv : (getCircularStats values size).1 = x := by
        simp only [getCircularStats]
        rw [if_pos h1, hx]
        rfl
      have hm : (getCircularStats modified size2).1 = y := by
        simp only [getCircularStats]
        rw [if_pos h1', hy]
        rfl
      rcases hxy with rfl | rfl
      · exact ⟨0, by rw [hv, hm]; ring⟩
      · exact ⟨1, by rw [hv, hm]; push_cast; ring⟩
    · have h1' : ¬ (modified.filterMap id).length = 1 := by omega
      refine ⟨0, ?_⟩
      have hv : (getCircularStats values size).1
          = degrees (circMeanRad (values.filterMap id)) := by
        simp only [getCircularStats]
        rw [if_neg h1]
      have hm : (getCircularStats modified size2).1
          = degrees (circMeanRad (modified.filterMap id)) := by
        simp only [getCircularStats]
        rw [if_neg h1']
      rw [hv, hm, circMeanRad_shift360 h']
      ring
  · have hlen : ¬ (([some (-179), some 179] : List (Option ℝ)).filterMap id).length = 1 := by
      simp
    have hres : (getCircularStats [some (-179), some 179] 2).1
        = degrees (circMeanRad [-179, 179]) := by
      simp only [getCircularStats]
      rw [if_neg hlen]
      rfl
    rw [hres]
    have hneg : radians (-179) = -(radians 179) := by
      unfold radians
      ring
    have hsin : (((([-179, 179] : List ℝ).map radians).map Real.sin).sum) = 0 := by
      simp [hneg, Real.sin_neg]
    have hcos : (((([-179, 179] : List ℝ).map radians).map Real.cos).sum)
        = 2 * Real.cos (radians 179) := by
      simp [hneg, Real.cos_neg]
      ring
    have hcosneg : Real.cos (radians 179) < 0 := by
      apply Real.cos_neg_of_pi_div_two_lt_of_lt
      · unfold radians
        nlinarith [Real.pi_pos]
      · unfold radians
        nlinarith [Real.pi_pos]
    have hμ : circMeanRad [-179, 179] = π := by
      unfold circMeanRad
      rw [hsin, hcos]
      unfold atan2
      have hzero : ((0 / (([(-179 : ℝ), 179] : List ℝ).length : ℝ) : ℝ) : ℂ) = 0 := by
        push_cast
        simp
      rw [hzero, zero_mul, add_zero]
      apply Complex.arg_ofReal_of_neg
      simp only [List.length_cons, List.length_nil]
      push_cast
      linarith
    rw [hμ]
    unfold degrees
    field_simp

/-- Witness for C1: adding 360 to the single entry of `[0]` shifts the
returned mean by a multiple of 360. -/
theorem C1_witness :
    Forall₂ shift360 [some 0] [some 360] ∧
    ∃ k : ℤ, (getCircularStats [some 360] 3).1 = (getCircularStats [some 0] 7).1 + 360 * k := by
  have hrel : Forall₂ shift360 [(some 0 : Option ℝ)] [some 360] :=
    Forall₂.cons (Or.inr ⟨0, rfl, by norm_num⟩) Forall₂.nil
  exact ⟨hrel, C1_circular_mean_wrap_invariant.1 [some 0] [some 360] 7 3 hrel⟩

/-- Claim C5: for a single-element input (`n = 1`), `getLinearStats` fails at
the standard-deviation step by dividing by `(n-1) = 0` (modelled as `none`),
unlike `getCircularStats`, which handles the single-value case explicitly by
returning `(value, 0)`. -/
theorem C5_single_value_asymmetry (v : ℝ) (s : ℕ) :
    getLinearStats [v] 1 = none ∧ getCircularStats [some v] s = (v, 0) := by
  constructor
  · simp [getLinearStats]
  · simp [getCircularStats]

/-- Witness for C5 at the concrete single value 2. -/
theorem C5_witness :
    getLinearStats [2] 1 = none ∧ getCircularStats [some 2] 1 = (2, 0) :=
  C5_single_value_asymmetry 2 1

/-- Claim C9: `getCircularStats` discards the caller-supplied size and
recomputes the count from the `None`-filtered value list, so the size
parameter never influences the output, whereas `getLinearStats` divides by
the caller-supplied size and so does depend on it. -/
theorem C9_circular_ignores_size :
    (∀ (values : List (Option ℝ)) (s1 s2 : ℕ),
       getCircularStats values s1 = getCircularStats values s2) ∧
    getLinearStats [1, 3] 2 ≠ getLinearStats [1, 3] 4 := by
  constructor
  · intro values s1 s2
    rfl
  · intro hcontra
    simp only [getLinearStats, List.sum_cons, List.sum_nil] at hcontra
    norm_num at hcontra

/-- Witness for C9 at a concrete list and two sizes. -/
theorem C9_witness :
    getCircularStats [some 1, some 5] 2 = getCircularStats [some 1, some 5] 99 :=
  C9_circular_ignores_size.1 [some 1, some 5] 2 99

/-- Claim C10: in circular reference-field mode, a bin whose stored average
is exactly 0 (a valid angle) is treated identically to a bin with a missing
average: the presence check is a truthiness test, so such a bin gets the
sentinel difference 9999 and the outlier color even though a deviation of 0
is strictly below the (positive) threshold. -/
theorem C10_zero_average_truthiness (colors adjust : RGB) (meanPropAvg t : ℝ)
    (hasStddev : Bool) (ht0 : 0 < t) (ht : t ≤ 9999) :
    circBinDifference (some 0) hasStddev meanPropAvg = 9999 ∧
    circBinColor colors adjust meanPropAvg t (some 0) hasStddev
      = circBinColor colors adjust meanPropAvg t none hasStddev ∧
    circBinColor colors adjust meanPropAvg t (some 0) hasStddev
      = RGB.add outlierRGB adjust ∧
    ¬ (t ≤ -(0 : ℝ) ∨ t ≤ (0 : ℝ)) := by
  have hd : circBinDifference (some (0 : ℝ)) hasStddev meanPropAvg = 9999 := by
    simp [circBinDifference]
  have hdn : circBinDifference none hasStddev meanPropAvg = 9999 := by
    simp [circBinDifference]
  have hout : ∀ a : Option ℝ, circBinDifference a hasStddev meanPropAvg = 9999 →
      circBinColor colors adjust meanPropAvg t a hasStddev = RGB.add outlierRGB adjust := by
    intro a ha
    unfold circBinColor circBinBase
    rw [ha, if_pos (Or.inr (by linarith))]
  refine ⟨hd, ?_, hout _ hd, ?_⟩
  · rw [hout _ hd, hout _ hdn]
  · push_neg
    constructor <;> linarith

/-- Witness for C10 with the green palette and threshold 100. -/
theorem C10_witness :
    (0 : ℝ) < 100 ∧ (100 : ℝ) ≤ 9999 ∧
    circBinColor ⟨255, 180, 200⟩ ⟨0, 75, 0⟩ 0 100 (some 0) true
      = RGB.add outlierRGB ⟨0, 75, 0⟩ :=
  ⟨by norm_num, by norm_num,
   (C10_zero_average_truthiness ⟨255, 180, 200⟩ ⟨0, 75, 0⟩ 0 100 true
      (by norm_num) (by norm_num)).2.2.1⟩

/-! Section: Scale bounds for the three shading modes -/

/-- In the non-outlier case of circular mode the scale lies in `[0, 1]`. -/
lemma circBinScale_mem (d t : ℝ) (h1 : -d < t) (h2 : d < t) :
    circBinScale d t ∈ Set.Icc (0 : ℝ) 1 := by
  have ht : 0 < t := by
    rcases le_or_lt 0 d with h | h
    · linarith
    · linarith
  have hlogt : 0 < Real.log (t + 1) := Real.log_pos (by linarith)
  unfold circBinScale
  by_cases hd : 0 ≤ d
  · rw [if_pos hd]
    have h0 : 0 ≤ Real.log (d + 1) := Real.log_nonneg (by linarith)
    have hle : Real.log (d + 1) ≤ Real.log (t + 1) := Real.log_le_log (by linarith) (by linarith)
    have hr : pylog (d + 1) (t + 1) ∈ Set.Icc (0 : ℝ) 1 := by
      unfold pylog
      exact ⟨div_nonneg h0 hlogt.le, (div_le_one hlogt).mpr hle⟩
    exact ⟨by linarith [hr.1], by linarith [hr.2]⟩
  · rw [if_neg hd]
    push_neg at hd
    have h0 : 0 ≤ Real.log (-d + 1) := Real.log_nonneg (by linarith)
    have hle : Real.log (-d + 1) ≤ Real.log (t + 1) := Real.log_le_log (by linarith) (by linarith)
    have hr : pylog (-d + 1) (t + 1) ∈ Set.Icc (0 : ℝ) 1 := by
      unfold pylog
      exact ⟨div_nonneg h0 hlogt.le, (div_le_one hlogt).mpr hle⟩
    exact ⟨by linarith [hr.2], by linarith [hr.1]⟩

/-- In count mode with `1 ≤ num ≤ maxObs` the scale lies in `[0, 1]`. -/
lemma obsScale_mem (num maxObs : ℕ) (h1 : 1 ≤ num) (h2 : num ≤ maxObs) :
    pylog ((num : ℝ) + 1) ((maxObs : ℝ) + 1) ∈ Set.Icc (0 : ℝ) 1 := by
  have hm : (1 : ℝ) ≤ (num : ℝ) := by exact_mod_cast h1
  have hnm : (num : ℝ) ≤ (maxObs : ℝ) := by exact_mod_cast h2
  have hlogm : 0 < Real.log ((maxObs : ℝ) + 1) := Real.log_pos (by linarith)
  unfold pylog
  constructor
  · exact div_nonneg (Real.log_nonneg (by linarith)) hlogm.le
  · rw [div_le_one hlogm]
    exact Real.log_le_log (by linarith) (by linarith)

/-- In the non-outlier case of linear mode the scale lies in `[0, 1]`. -/
lemma linearScale_mem (meanPropAvg minPropAvg maxPropAvg avg : ℝ)
    (h1 : minPropAvg < avg) (h2 : avg < maxPropAvg) :
    (0.5 + (if meanPropAvg < avg then
              pylog (avg - meanPropAvg + 1) (maxPropAvg - meanPropAvg + 1)
            else
              -pylog (meanPropAvg - avg + 1) (meanPropAvg - minPropAvg + 1)) / 2)
      ∈ Set.Icc (0 : ℝ) 1 := by
  by_cases hm : meanPropAvg < avg
  · rw [if_pos hm]
    have hb : 0 < Real.log (maxPropAvg - meanPropAvg + 1) := Real.log_pos (by linarith)
    have h0 : 0 ≤ Real.log (avg - meanPropAvg + 1) := Real.log_nonneg (by linarith)
    have hle : Real.log (avg - meanPropAvg + 1) ≤ Real.log (maxPropAvg - meanPropAvg + 1) :=
      Real.log_le_log (by linarith) (by linarith)
    have hr : pylog (avg - meanPropAvg + 1) (maxPropAvg - meanPropAvg + 1)
        ∈ Set.Icc (0 : ℝ) 1 := by
      unfold pylog
      exact ⟨div_nonneg h0 hb.le, (div_le_one hb).mpr hle⟩
    exact ⟨by linarith [hr.1], by linarith [hr.2]⟩
  · rw [if_neg hm]
    push_neg at hm
    have hb : 0 < Real.log (meanPropAvg - minPropAvg + 1) := Real.log_pos (by linarith)
    have h0 : 0 ≤ Real.log (meanPropAvg - avg + 1) := Real.log_nonneg (by linarith)
    have hle : Real.log (meanPropAvg - avg + 1) ≤ Real.log (meanPropAvg - minPropAvg + 1) :=
      Real.log_le_log (by linarith) (by linarith)
    have hr : pylog (meanPropAvg - avg + 1) (meanPropAvg - minPropAvg + 1)
        ∈ Set.Icc (0 : ℝ) 1 := by
      unfold pylog
      exact ⟨div_nonneg h0 hb.le, (div_le_one hb).mpr hle⟩
    exact ⟨by linarith [hr.2], by linarith [hr.1]⟩

/-! Section: Channel ranges -/

lemma pyround_mem (x : ℝ) (h0 : 0 ≤ x) (h255 : x ≤ 255) :
    pyround x ∈ Set.Icc (0 : ℤ) 255 := by
  unfold pyround
  rw [if_neg (not_lt.mpr h0)]
  constructor
  · exact Int.le_floor.mpr (by push_cast; linarith)
  · have h := Int.floor_le_floor (show x + 1 / 2 ≤ 255 + 1 / 2 by linarith)
    have h2 : ⌊(255 + 1 / 2 : ℝ)⌋ = 255 := by norm_num
    omega

lemma chanInRange_of (x : ℝ) (h0 : 0 ≤ x) (h255 : x ≤ 255) : chanInRange x :=
  ⟨⟨h0, h255⟩, pyround_mem x h0 h255⟩

/-- A palette base scaled by a factor in `[0, 1]` and then adjusted stays in
the byte range for any well-formed palette. -/
lemma rgbInRange_scale_add {colors adjust : RGB} (hOK : paletteOK colors adjust)
    {s : ℝ} (h0 : 0 ≤ s) (h1 : s ≤ 1) :
    rgbInRange (RGB.add (RGB.scale colors s) adjust) := by
  obtain ⟨hcr, hcg, hcb, har, hag, hab, hsr, hsg, hsb⟩ := hOK
  unfold rgbInRange RGB.add RGB.scale chanInRange
  dsimp only
  refine ⟨⟨⟨?_, ?_⟩, pyround_mem _ ?_ ?_⟩, ⟨⟨?_, ?_⟩, pyround_mem _ ?_ ?_⟩,
          ⟨⟨?_, ?_⟩, pyround_mem _ ?_ ?_⟩⟩ <;> nlinarith

/-- The pre-adjustment circular-mode color is the fixed outlier color exactly
when the threshold does not exceed the absolute difference: the non-outlier
scaled color can never coincide with it, because its green channel is
nonnegative while the outlier green channel is -75. -/
lemma circBinBase_eq_outlier_iff (colors : RGB) (meanPropAvg t : ℝ) (avg : Option ℝ)
    (hasStddev : Bool) (hg : 0 ≤ colors.g) :
    circBinBase colors meanPropAvg t avg hasStddev = outlierRGB
      ↔ t ≤ |circBinDifference avg hasStddev meanPropAvg| := by
  set d := circBinDifference avg hasStddev meanPropAvg with hd
  have hcond : (t ≤ -d ∨ t ≤ d) ↔ t ≤ |d| := by
    rw [le_abs]
    tauto
  simp only [circBinBase]
  rw [← hd]
  by_cases hc : t ≤ -d ∨ t ≤ d
  · rw [if_pos hc]
    simp only [hcond.mp hc, iff_true]
  · rw [if_neg hc, ← hcond]
    constructor
    · intro hcontra
      exfalso
      push_neg at hc
      have hs := circBinScale_mem d t (by linarith [hc.1]) hc.2
      have hgch := congrArg RGB.g hcontra
      simp only [RGB.scale, outlierRGB] at hgch
      have hprod := mul_nonneg hg hs.1
      linarith
    · intro h
      exact absurd h hc

lemma circBinBase_not_outlier (colors : RGB) (meanPropAvg t : ℝ) (avg : Option ℝ)
    (hasStddev : Bool)
    (hc : ¬ (t ≤ -(circBinDifference avg hasStddev meanPropAvg)
              ∨ t ≤ circBinDifference avg hasStddev meanPropAvg)) :
    circBinBase colors meanPropAvg t avg hasStddev
      = RGB.scale colors (circBinScale (circBinDifference avg hasStddev meanPropAvg) t) := by
  simp only [circBinBase]
  rw [if_neg hc]

/-- Claim C3 (amended): in circular reference-field mode, a bin gets the
fixed outlier color (255, -75, 255) before channel adjustment if and only if
the absolute wrapped difference reaches `stdPropAvgXSigma`, where
`stdPropAvgXSigma = 180` when the distribution standard deviation exceeds 60
and `sigma * stdDev` otherwise; a bin lacking an average receives the
sentinel difference 9999, which classifies it as an outlier whenever
`stdPropAvgXSigma ≤ 9999` (in particular for every sane sigma multiplier). -/
theorem C3_circular_outlier_threshold (colors : RGB) (meanPropAvg sig stdPropAvg : ℝ)
    (avg : Option ℝ) (hasStddev : Bool) (hg : 0 ≤ colors.g) :
    (stdPropAvgXSigmaOf sig stdPropAvg
        = if 60 < stdPropAvg then 180 else sig * stdPropAvg) ∧
    (circBinBase colors meanPropAvg (stdPropAvgXSigmaOf sig stdPropAvg) avg hasStddev
        = outlierRGB
      ↔ stdPropAvgXSigmaOf sig stdPropAvg
          ≤ |circBinDifference avg hasStddev meanPropAvg|) ∧
    circBinDifference none hasStddev meanPropAvg = 9999 ∧
    (stdPropAvgXSigmaOf sig stdPropAvg ≤ 9999 →
      circBinBase colors meanPropAvg (stdPropAvgXSigmaOf sig stdPropAvg) none hasStddev
        = outlierRGB) := by
  have hdn : circBinDifference none hasStddev meanPropAvg = 9999 := by
    simp [circBinDifference]
  refine ⟨rfl, circBinBase_eq_outlier_iff _ _ _ _ _ hg, hdn, ?_⟩
  intro hle
  rw [circBinBase_eq_outlier_iff _ _ _ _ _ hg, hdn, abs_of_nonneg (by norm_num)]
  exact hle

/-- Witness for C3 (amended) with the green palette: a bin average far from
the mean is outlier-classified, and the missing-average sentinel is too. -/
theorem C3_witness :
    (0 : ℝ) ≤ (⟨255, 180, 200⟩ : RGB).g ∧
    (circBinBase ⟨255, 180, 200⟩ 0 (stdPropAvgXSigmaOf 1 70) (some 170) true = outlierRGB
      ↔ stdPropAvgXSigmaOf 1 70 ≤ |circBinDifference (some 170) true 0|) := by
  refine ⟨by norm_num, ?_⟩
  exact (C3_circular_outlier_threshold ⟨255, 180, 200⟩ 0 1 70 (some 170) true
    (by norm_num)).2.1

/-- Counterexample to C3 as stated: with sigma multiplier 200 and a
distribution standard deviation of exactly 60, the threshold formula gives
`stdPropAvgXSigma = 200 * 60 = 12000`, and a bin lacking an average (whose
sentinel difference is 9999 < 12000) is NOT classified as an outlier. -/
theorem C3_counterexample :
    stdPropAvgXSigmaOf 200 60 = 12000 ∧
    circBinBase ⟨255, 180, 200⟩ 0 (stdPropAvgXSigmaOf 200 60) none true ≠ outlierRGB := by
  have ht : stdPropAvgXSigmaOf (200 : ℝ) 60 = 12000 := by
    unfold stdPropAvgXSigmaOf
    rw [if_neg (by norm_num)]
    norm_num
  refine ⟨ht, ?_⟩
  rw [ht]
  have hd : circBinDifference none true (0 : ℝ) = 9999 := by
    simp [circBinDifference]
  simp only [circBinBase, hd]
  rw [if_neg (by norm_num)]
  intro hcontra
  have hgch := congrArg RGB.g hcontra
  simp only [RGB.scale, outlierRGB] at hgch
  have hs := circBinScale_mem (9999 : ℝ) 12000 (by norm_num) (by norm_num)
  linarith [hs.1]

/-- Claim C4 (amended): for every well-formed palette, every non-outlier bin
color emitted by `render_bins` — count mode with `1 ≤ count ≤ maxObs`,
circular mode below the threshold, linear mode strictly between the bounds —
has every channel within [0, 255] both before and after rounding.  (The code
performs no clamping, and outlier bins do receive out-of-range channels; see
the counterexample.) -/
theorem C4_channels_in_range (colors adjust : RGB) (hOK : paletteOK colors adjust) :
    (∀ num maxObs : ℕ, 1 ≤ num → num ≤ maxObs →
       rgbInRange (obsBinColor colors adjust num maxObs)) ∧
    (∀ (meanPropAvg t : ℝ) (avg : Option ℝ) (hasStddev : Bool),
       ¬ (t ≤ -(circBinDifference avg hasStddev meanPropAvg)
            ∨ t ≤ circBinDifference avg hasStddev meanPropAvg) →
       rgbInRange (circBinColor colors adjust meanPropAvg t avg hasStddev)) ∧
    (∀ meanPropAvg minPropAvg maxPropAvg avg : ℝ,
       minPropAvg < avg → avg < maxPropAvg →
       rgbInRange (linearBinColor colors adjust meanPropAvg minPropAvg maxPropAvg avg)) := by
  refine ⟨?_, ?_, ?_⟩
  · intro num maxObs h1 h2
    have hs := obsScale_mem num maxObs h1 h2
    unfold obsBinColor
    exact rgbInRange_scale_add hOK hs.1 hs.2
  · intro meanPropAvg t avg hasStddev hc
    have hc' := hc
    push_neg at hc'
    have hs := circBinScale_mem (circBinDifference avg hasStddev meanPropAvg) t
      (by linarith [hc'.1]) hc'.2
    unfold circBinColor
    rw [circBinBase_not_outlier _ _ _ _ _ hc]
    exact rgbInRange_scale_add hOK hs.1 hs.2
  · intro meanPropAvg minPropAvg maxPropAvg avg h1 h2
    have hcond : ¬ (avg ≤ minPropAvg ∨ maxPropAvg ≤ avg) := by
      push_neg
      exact ⟨h1, h2⟩
    have hs := linearScale_mem meanPropAvg minPropAvg maxPropAvg avg h1 h2
    unfold linearBinColor linearBinBase
    rw [if_neg hcond]
    exact rgbInRange_scale_add hOK hs.1 hs.2

/-- Witness for C4 (amended) with the green palette in count mode. -/
theorem C4_witness :
    paletteOK ⟨255, 180, 200⟩ ⟨0, 75, 0⟩ ∧
    rgbInRange (obsBinColor ⟨255, 180, 200⟩ ⟨0, 75, 0⟩ 1 1) := by
  have hOK : paletteOK ⟨255, 180, 200⟩ ⟨0, 75, 0⟩ := by
    unfold paletteOK
    norm_num
  exact ⟨hOK, (C4_channels_in_range _ _ hOK).1 1 1 le_rfl le_rfl⟩

/-- Counterexample to C4 as stated: an emitted bin (average present: the
truthiness bug makes an average of exactly 0 an outlier, and such a bin IS
emitted since `0 == None` is false) in circular mode with the blue palette
receives the color (255, -75, 330); nothing is clamped and two channels lie
outside [0, 255]. -/
theorem C4_counterexample :
    COLOR_RANGES "blue" = some (⟨180, 200, 180⟩, ⟨0, 0, 75⟩) ∧
    circBinColor ⟨180, 200, 180⟩ ⟨0, 0, 75⟩ 0 100 (some 0) true = ⟨255, -75, 330⟩ ∧
    ¬ rgbInRange (⟨255, -75, 330⟩ : RGB) := by
  refine ⟨rfl, ?_, ?_⟩
  · have hd : circBinDifference (some (0 : ℝ)) true 0 = 9999 := by
      simp [circBinDifference]
    simp only [circBinColor, circBinBase, hd]
    rw [if_pos (Or.inr (by norm_num : (100 : ℝ) ≤ 9999))]
    simp only [RGB.add, outlierRGB, RGB.mk.injEq]
    norm_num
  · intro h
    have hg := h.2.1.1.1
    norm_num at hg

/-- Claim C7: in count mode (`ref == 'Observations'`), each color channel is
`baseColor * scale + adjustment` with `scale = log(count+1)/log(maxObs+1)`;
for a bin whose count equals `maxObs ≥ 1`, the scale is exactly 1 and the
full-intensity base color plus adjustment is returned. -/
theorem C7_count_mode_scale (colors adjust : RGB) (num maxObs : ℕ) :
    obsBinColor colors adjust num maxObs
      = RGB.add (RGB.scale colors (pylog ((num : ℝ) + 1) ((maxObs : ℝ) + 1))) adjust ∧
    (num = maxObs → 1 ≤ maxObs →
      pylog ((num : ℝ) + 1) ((maxObs : ℝ) + 1) = 1 ∧
      obsBinColor colors adjust num maxObs = RGB.add colors adjust) := by
  refine ⟨rfl, ?_⟩
  rintro rfl h1
  have hm : (1 : ℝ) ≤ (num : ℝ) := by exact_mod_cast h1
  have hlog : Real.log ((num : ℝ) + 1) ≠ 0 := ne_of_gt (Real.log_pos (by linarith))
  have hscale : pylog ((num : ℝ) + 1) ((num : ℝ) + 1) = 1 := by
    unfold pylog
    exact div_self hlog
  refine ⟨hscale, ?_⟩
  unfold obsBinColor
  rw [hscale]
  simp [RGB.scale]

/-- Witness for C7: a single bin holding the maximum count gets exactly the
full-intensity base color plus adjustment. -/
theorem C7_witness :
    obsBinColor ⟨255, 180, 200⟩ ⟨0, 75, 0⟩ 3 3 = RGB.add ⟨255, 180, 200⟩ ⟨0, 75, 0⟩ :=
  ((C7_count_mode_scale ⟨255, 180, 200⟩ ⟨0, 75, 0⟩ 3 3).2 rfl (by norm_num)).2

/-- Claim C6 (amended): in circular reference-field mode, for a bin with a
present truthy average, when both the bin average and the distribution mean
lie in `(-180, 180]`, the wrap-corrected difference lies in the closed
interval `[-180, 180]` (both endpoints are attainable: `avg - mean = 180`
maps to `-180` and `avg - mean = -180` maps to `180`, so the claimed
half-open interval `(-180, 180]` is wrong at the endpoint). -/
theorem C6_difference_range (a meanPropAvg : ℝ) (hasStddev : Bool)
    (ha : a ∈ Set.Ioc (-180 : ℝ) 180) (hm : meanPropAvg ∈ Set.Ioc (-180 : ℝ) 180)
    (hnz : a ≠ 0) (hs : hasStddev = true) :
    circBinDifference (some a) hasStddev meanPropAvg ∈ Set.Icc (-180 : ℝ) 180 := by
  have hrw : circBinDifference (some a) hasStddev meanPropAvg
      = circDifference a meanPropAvg := by
    simp [circBinDifference, hnz, hs]
  rw [hrw]
  obtain ⟨ha1, ha2⟩ := ha
  obtain ⟨hm1, hm2⟩ := hm
  simp only [circDifference]
  by_cases hc : -180 < a - meanPropAvg ∧ a - meanPropAvg < 180
  · rw [if_pos hc]
    exact ⟨le_of_lt hc.1, le_of_lt hc.2⟩
  · rw [if_neg hc]
    rw [Classical.not_and_iff_or_not_not] at hc
    by_cases hneg : a - meanPropAvg < 0
    · rw [if_pos hneg]
      have hs1 : a - meanPropAvg ≤ -180 := by
        rcases hc with h | h
        · linarith [not_lt.mp h]
        · linarith [not_lt.mp h]
      constructor <;> linarith
    · rw [if_neg hneg]
      push_neg at hneg
      have hs2 : 180 ≤ a - meanPropAvg := by
        rcases hc with h | h
        · linarith [not_lt.mp h]
        · linarith [not_lt.mp h]
      constructor <;> linarith

/-- Witness for C6 (amended) at bin average 10 and distribution mean 20. -/
theorem C6_witness :
    circBinDifference (some 10) true 20 ∈ Set.Icc (-180 : ℝ) 180 :=
  C6_difference_range 10 20 true (by norm_num) (by norm_num) (by norm_num) rfl

/-- Counterexample to C6 as stated: bin average 180 and distribution mean 0
(both legitimate degree values of circular means) give a wrap-corrected
difference of exactly -180, outside the claimed interval `(-180, 180]`. -/
theorem C6_counterexample :
    circDifference 180 0 = -180 ∧ (-180 : ℝ) ∉ Set.Ioc (-180 : ℝ) 180 := by
  constructor
  · simp only [circDifference]
    rw [if_neg (by norm_num)]
    rw [if_neg (by norm_num)]
    norm_num
  · simp

/-- Claim C8: for every plot-area pixel size and axis bin counts, the pixel
width of a bin rectangle equals `floor((plotWidthPx - xBinCount + 1)/xBinCount)`
(analogously for height), the rectangle for bin `(ix, iy)` is placed at pixel
`x = ix*(binWidth+1) + xOffset + 1` (analogously for `y`), and consecutive
bins are separated by exactly a 1-pixel gap beyond the bin width. -/
theorem C8_bin_geometry (width height : ℝ) (xBinCount yBinCount : ℤ)
    (xOffset yOffset : ℝ) (ix iy : ℤ) :
    (binPixCoords width height xBinCount yBinCount xOffset yOffset ix iy).width
        = ((⌊(width - (xBinCount : ℝ) + 1) / (xBinCount : ℝ)⌋ : ℤ) : ℝ) ∧
    (binPixCoords width height xBinCount yBinCount xOffset yOffset ix iy).height
        = ((⌊(height - (yBinCount : ℝ) + 1) / (yBinCount : ℝ)⌋ : ℤ) : ℝ) ∧
    (binPixCoords width height xBinCount yBinCount xOffset yOffset ix iy).x
        = (ix : ℝ) * (((⌊(width - (xBinCount : ℝ) + 1) / (xBinCount : ℝ)⌋ : ℤ) : ℝ) + 1)
          + xOffset + 1 ∧
    (binPixCoords width height xBinCount yBinCount xOffset yOffset ix iy).y
        = (iy : ℝ) * (((⌊(height - (yBinCount : ℝ) + 1) / (yBinCount : ℝ)⌋ : ℤ) : ℝ) + 1)
          + yOffset + 1 ∧
    (binPixCoords width height xBinCount yBinCount xOffset yOffset (ix + 1) iy).x
        = (binPixCoords width height xBinCount yBinCount xOffset yOffset ix iy).x
          + (binPixCoords width height xBinCount yBinCount xOffset yOffset ix iy).width + 1 ∧
    (binPixCoords width height xBinCount yBinCount xOffset yOffset ix (iy + 1)).y
        = (binPixCoords width height xBinCount yBinCount xOffset yOffset ix iy).y
          + (binPixCoords width height xBinCount yBinCount xOffset yOffset ix iy).height + 1 := by
  refine ⟨rfl, rfl, rfl, rfl, ?_, ?_⟩ <;>
    (simp only [binPixCoords]; push_cast; ring)

end PGD
